import Mathlib

/-!
Shallow embedding of the web-status dashboard core (src/main.rs): the
percentile estimator, the status classifier, the latency sampler, the
hexadecimal block-number parser and the latest-block handler, together
with proofs of the specified properties.

Rust f64 values are modelled as rationals plus an explicit NaN
constructor; panics are modelled as `none`.
-/

namespace WebStatus

/-- An f64 value as the probe pipeline uses it: NaN or a finite number,
the latter modelled as a rational. -/
inductive Fl where
  | nan : Fl
  | num : ℚ → Fl
deriving DecidableEq

/-- Total comparison of two finite f64 values, as Rust `partial_cmp`
decides it on non-NaN floats. -/
def cmpQ (a b : ℚ) : Ordering :=
  if a < b then Ordering.lt else if a = b then Ordering.eq else Ordering.gt

/-- Models `a.partial_cmp(b)` on f64: `none` exactly when an operand is
NaN (src/main.rs line 53). -/
def fcmp : Fl → Fl → Option Ordering
  | Fl.num a, Fl.num b => some (cmpQ a b)
  | _, _ => none

/-- One insertion step of a comparison sort whose comparator may fail;
a `none` comparison aborts the whole sort, modelling the panic of
`.unwrap()` inside the `sort_by` comparator (src/main.rs line 53). -/
def insertF (cmp : Fl → Fl → Option Ordering) (a : Fl) : List Fl → Option (List Fl)
  | [] => some [a]
  | b :: bs =>
    match cmp a b with
    | none => none
    | some Ordering.gt => (insertF cmp a bs).map (fun t => b :: t)
    | some _ => some (a :: b :: bs)

/-- Models `v.sort_by(|a, b| a.partial_cmp(b).unwrap())` as a stable
comparison sort; `none` models the comparator panicking on a NaN. -/
def sortF (cmp : Fl → Fl → Option Ordering) : List Fl → Option (List Fl)
  | [] => some []
  | a :: rest => (sortF cmp rest).bind (insertF cmp a)

/-- Rust `f64::round`: round to nearest integer, ties away from zero. -/
def rustRound (q : ℚ) : ℤ :=
  if 0 ≤ q then ⌊q + 1 / 2⌋ else -⌊-q + 1 / 2⌋

/-- The percentile function of src/main.rs lines 52-57, kept together
with the final contents of its mutable slice argument. It sorts the
slice in place (`none` models the sort panicking on NaN), returns NaN
for an empty slice, and otherwise indexes the sorted slice at
`min(round(p * (len - 1)), len - 1)`; the `Int.toNat` mirrors the
saturating `as usize` cast. The first component of the result is the
caller-visible slice after the call, the second the returned value. -/
def percentileRun (v : List Fl) (p : ℚ) : Option (List Fl × Fl) :=
  match sortF fcmp v with
  | none => none
  | some s =>
    if s.length = 0 then some (s, Fl.nan)
    else
      some (s, s.getD (min (rustRound (p * ((s.length : ℚ) - 1))).toNat (s.length - 1)) Fl.nan)

/-- The value `percentile(v, p)` returns (src/main.rs lines 52-57);
`none` models a panic. -/
def percentile (v : List Fl) (p : ℚ) : Option Fl :=
  (percentileRun v p).map Prod.snd

/-- The three-level health status of the dashboard. -/
inductive HealthStatus where
  | ok : HealthStatus
  | warn : HealthStatus
  | down : HealthStatus
deriving DecidableEq

/-- The status computation of src/main.rs lines 118-126: NaN means
down, then the 300 ms and 800 ms thresholds are tested in order. -/
def classify (p95 : Fl) : HealthStatus :=
  match p95 with
  | Fl.nan => HealthStatus.down
  | Fl.num q =>
    if q ≤ 300 then HealthStatus.ok
    else if q ≤ 800 then HealthStatus.warn
    else HealthStatus.down

/-- One sampling round (src/main.rs lines 101-108). Each probe call is
modelled by a pair of the adapter outcome (`true` means the RPC call
succeeded) and the elapsed wall-clock milliseconds; a failed call
records the penalty sample 3000.0 instead of the elapsed time. -/
def sampleRound (calls : List (Bool × ℚ)) : List ℚ :=
  calls.map (fun c => if c.1 then c.2 else 3000)

/-- The aggregation in src/main.rs lines 110-126: clone the samples,
run percentile twice on the clone (the second call sees the slice the
first call sorted), classify the p95. The result carries the original
samples vector, p50, p95 and the status; `none` models a panic. -/
def latencyOf (samples : List ℚ) : Option (List ℚ × Fl × Fl × HealthStatus) :=
  match percentileRun (samples.map Fl.num) 0.5 with
  | none => none
  | some (s1, p50) =>
    match percentileRun s1 0.95 with
    | none => none
    | some (_, p95) => some (samples, p50, p95, classify p95)

/-- The node-latency handler pipeline (src/main.rs lines 99-126)
applied to the outcomes of its probe calls. -/
def nodeLatency (calls : List (Bool × ℚ)) : Option (List ℚ × Fl × Fl × HealthStatus) :=
  latencyOf (sampleRound calls)

/-- Value of one hexadecimal digit, as Rust `char::to_digit(16)`. -/
def hexDigitVal (c : Char) : Option Nat :=
  if ('0' ≤ c ∧ c ≤ '9') then some (c.toNat - ('0').toNat)
  else if ('a' ≤ c ∧ c ≤ 'f') then some (c.toNat - ('a').toNat + 10)
  else if ('A' ≤ c ∧ c ≤ 'F') then some (c.toNat - ('A').toNat + 10)
  else none

/-- Digit loop of `u64::from_str_radix(s, 16)`: accumulate base-16
digits, failing on a non-digit or on overflow past 2^64. -/
def parseHexDigits : List Char → Nat → Option Nat
  | [], acc => some acc
  | c :: rest, acc =>
    match hexDigitVal c with
    | none => none
    | some d =>
      if acc * 16 + d < 2 ^ 64 then parseHexDigits rest (acc * 16 + d) else none

/-- Models `s.trim_start_matches("0x")`: repeatedly strip a leading
"0x" (src/main.rs line 93). -/
def trim0x : List Char → List Char
  | '0' :: 'x' :: rest => trim0x rest
  | l => l

/-- Models `u64::from_str_radix(s, 16)`: an optional leading plus sign,
then at least one base-16 digit, with overflow rejected. -/
def from_str_radix16 (cs : List Char) : Option Nat :=
  match cs with
  | [] => none
  | '+' :: rest => if rest = [] then none else parseHexDigits rest 0
  | _ => parseHexDigits cs 0

/-- The hex_to_u64 function of src/main.rs lines 92-95. -/
def hex_to_u64 (s : String) : Option Nat :=
  from_str_radix16 (trim0x s.data)

/-- A JSON value as far as the latest-block handler inspects it: a
string, or anything else (`as_str` fails on the latter). -/
inductive Json where
  | str : String → Json
  | other : Json
deriving DecidableEq

/-- The body of the latest-block response (§3 of the design). -/
structure BlockHeightResult where
  rawHex : String
  value : Nat
  chain : String
deriving DecidableEq

/-- The outcome of the one upstream RPC call the latest-block handler
makes: the transport failed, the body did not decode as a JSON-RPC
response, or a decoded response whose optional `result` field is
given. -/
inductive Upstream where
  | sendErr : Upstream
  | decodeErr : Upstream
  | ok : Option Json → Upstream
deriving DecidableEq

/-- The latest_block handler of src/main.rs lines 140-162. The two
`.unwrap()` calls on the transport and on JSON decoding are modelled
by `none` (a panic); a decoded response defaults a missing `result` to
the string "0x0", a non-string result to "0x0", and an unparsable hex
string to the numeric value 0. -/
def latest_block (chain : String) (u : Upstream) : Option BlockHeightResult :=
  match u with
  | Upstream.sendErr => none
  | Upstream.decodeErr => none
  | Upstream.ok result =>
    let hex := result.getD (Json.str ("0x0"))
    let block_str := match hex with
      | Json.str s => s
      | Json.other => "0x0"
    some { rawHex := block_str, value := (hex_to_u64 block_str).getD 0, chain := chain }

/-! ### Helper lemmas -/

/-- getD at an index within bounds is get. -/
theorem getD_eq_get {α : Type} (d : α) : ∀ (s : List α) (i : Nat) (h : i < s.length),
    s.getD i d = s.get ⟨i, h⟩
  | _ :: _, 0, _ => rfl
  | _ :: s, i + 1, h => by
    rw [List.getD_cons_succ]
    exact getD_eq_get d s i (Nat.lt_of_succ_lt_succ h)

/-- Indexing a mapped list of finite values within bounds yields the
mapped entry. -/
theorem getD_map_num : ∀ (s : List ℚ) (i : Nat), i < s.length →
    (s.map Fl.num).getD i Fl.nan = Fl.num (s.getD i 0)
  | _ :: _, 0, _ => rfl
  | _ :: s, i + 1, h => by
    rw [List.map_cons, List.getD_cons_succ, List.getD_cons_succ]
    exact getD_map_num s i (Nat.lt_of_succ_lt_succ h)

/-- On NaN-free inputs, one fallible insertion step agrees with
Mathlib's ordered insertion. -/
theorem insertF_map (a : ℚ) : ∀ l : List ℚ,
    insertF fcmp (Fl.num a) (l.map Fl.num) =
      some ((List.orderedInsert (fun x y => x ≤ y) a l).map Fl.num)
  | [] => rfl
  | b :: bs => by
    rcases lt_trichotomy a b with h | h | h
    · have h1 : cmpQ a b = Ordering.lt := by simp [cmpQ, h]
      simp [insertF, fcmp, h1, List.orderedInsert, le_of_lt h]
    · subst h
      have h1 : cmpQ a a = Ordering.eq := by simp [cmpQ]
      simp [insertF, fcmp, h1, List.orderedInsert]
    · have h1 : cmpQ a b = Ordering.gt := by
        simp [cmpQ, not_lt.mpr (le_of_lt h), (ne_of_gt h)]
      simp [insertF, fcmp, h1, List.orderedInsert, not_le.mpr h, insertF_map a bs]

/-- On NaN-free inputs the fallible sort succeeds and agrees with
Mathlib's insertion sort. -/
theorem sortF_map : ∀ l : List ℚ,
    sortF fcmp (l.map Fl.num) =
      some ((List.insertionSort (fun x y => x ≤ y) l).map Fl.num)
  | [] => rfl
  | a :: l => by
    simp [sortF, sortF_map l, List.insertionSort,
      insertF_map a (List.insertionSort (fun x y => x ≤ y) l)]

/-- A successful fallible insertion produces a permutation of the
element pushed onto the input list. -/
theorem insertF_perm : ∀ (a : Fl) (l t : List Fl),
    insertF fcmp a l = some t → List.Perm t (a :: l)
  | a, [], t => by
    intro h
    simp only [insertF, Option.some.injEq] at h
    exact h ▸ List.Perm.refl _
  | a, b :: bs, t => by
    intro h
    simp only [insertF] at h
    cases hc : fcmp a b with
    | none => rw [hc] at h; exact absurd h (by simp)
    | some o =>
      rw [hc] at h
      cases o with
      | lt => exact (Option.some.injEq _ _ ▸ h : _ = t) ▸ List.Perm.refl _
      | eq => exact (Option.some.injEq _ _ ▸ h : _ = t) ▸ List.Perm.refl _
      | gt =>
        rcases Option.map_eq_some'.mp h with ⟨t', ht', rfl⟩
        exact ((insertF_perm a bs t' ht').cons b).trans (List.Perm.swap a b bs)

/-- A successful fallible sort produces a permutation of its input. -/
theorem sortF_perm : ∀ (l s : List Fl), sortF fcmp l = some s → List.Perm s l
  | [], s => by
    intro h
    simp only [sortF, Option.some.injEq] at h
    exact h ▸ List.Perm.refl _
  | a :: as, s => by
    intro h
    simp only [sortF] at h
    cases h1 : sortF fcmp as with
    | none => rw [h1] at h; exact absurd h (by simp)
    | some s1 =>
      rw [h1] at h
      exact (insertF_perm a s1 s h).trans ((sortF_perm as s1 h1).cons a)

/-- On a non-empty NaN-free input, percentileRun succeeds; the slice
afterwards is the ascending insertion sort and the value is the sorted
list indexed at the clamped rounded rank. -/
theorem percentileRun_map (l : List ℚ) (p : ℚ) (hl : l ≠ []) :
    percentileRun (l.map Fl.num) p =
      some ((List.insertionSort (fun x y => x ≤ y) l).map Fl.num,
        Fl.num ((List.insertionSort (fun x y => x ≤ y) l).getD
          (min (rustRound (p * ((l.length : ℚ) - 1))).toNat (l.length - 1)) 0)) := by
  have hpos : 0 < l.length := List.length_pos.mpr hl
  have hlen : (List.insertionSort (fun x y => x ≤ y) l).length = l.length :=
    List.length_insertionSort (fun x y => x ≤ y) l
  have hmaplen : ((List.insertionSort (fun x y => x ≤ y) l).map Fl.num).length = l.length := by
    rw [List.length_map, hlen]
  have hne : ((List.insertionSort (fun x y => x ≤ y) l).map Fl.num).length ≠ 0 := by
    rw [hmaplen]; exact Nat.pos_iff_ne_zero.mp hpos
  have hidx : min (rustRound (p * ((l.length : ℚ) - 1))).toNat (l.length - 1) <
      (List.insertionSort (fun x y => x ≤ y) l).length := by
    rw [hlen]
    exact lt_of_le_of_lt (min_le_right _ _) (Nat.sub_lt hpos Nat.one_pos)
  unfold percentileRun
  rw [sortF_map l]
  simp only [hmaplen]
  rw [getD_map_num _ _ hidx]
  rw [if_neg (Nat.pos_iff_ne_zero.mp hpos)]

/-- On a non-empty NaN-free input, percentile returns the sorted list
indexed at the clamped rounded rank. -/
theorem percentile_map (l : List ℚ) (p : ℚ) (hl : l ≠ []) :
    percentile (l.map Fl.num) p =
      some (Fl.num ((List.insertionSort (fun x y => x ≤ y) l).getD
        (min (rustRound (p * ((l.length : ℚ) - 1))).toNat (l.length - 1)) 0)) := by
  unfold percentile
  rw [percentileRun_map l p hl]
  rfl

/-- percentile never fails on NaN-free input. -/
theorem percentile_total (l : List ℚ) (p : ℚ) :
    ∃ r : Fl, percentile (l.map Fl.num) p = some r := by
  by_cases hl : l = []
  · subst hl; exact ⟨Fl.nan, rfl⟩
  · exact ⟨_, percentile_map l p hl⟩

/-- In a sorted list, getD is monotone in the index. -/
theorem sorted_getD_mono (s : List ℚ) (hs : s.Sorted (fun x y => x ≤ y))
    (i j : Nat) (hij : i ≤ j) (hj : j < s.length) : s.getD i 0 ≤ s.getD j 0 := by
  have hi : i < s.length := lt_of_le_of_lt hij hj
  rw [getD_eq_get 0 s i hi, getD_eq_get 0 s j hj]
  exact hs.rel_get_of_le hij

/-- The first entry of a sorted list bounds every member below. -/
theorem sorted_getD_min (s : List ℚ) (hs : s.Sorted (fun x y => x ≤ y))
    (x : ℚ) (hx : x ∈ s) : s.getD 0 0 ≤ x := by
  rcases List.mem_iff_get.mp hx with ⟨j, rfl⟩
  rw [getD_eq_get 0 s 0 (lt_of_le_of_lt (Nat.zero_le _) j.isLt)]
  exact hs.rel_get_of_le (Nat.zero_le _)

/-- The last entry of a sorted list bounds every member above. -/
theorem sorted_getD_max (s : List ℚ) (hs : s.Sorted (fun x y => x ≤ y))
    (x : ℚ) (hx : x ∈ s) : x ≤ s.getD (s.length - 1) 0 := by
  rcases List.mem_iff_get.mp hx with ⟨j, rfl⟩
  have hlt : s.length - 1 < s.length :=
    Nat.sub_lt (lt_of_le_of_lt (Nat.zero_le _) j.isLt) Nat.one_pos
  rw [getD_eq_get 0 s (s.length - 1) hlt]
  exact hs.rel_get_of_le (Nat.le_pred_of_lt j.isLt)

/-- rustRound of zero is zero. -/
theorem rustRound_zero : rustRound 0 = 0 := by
  unfold rustRound
  rw [if_pos le_rfl]
  rw [Int.floor_eq_iff]
  norm_num

/-- rustRound of a natural number is itself. -/
theorem rustRound_natCast (m : Nat) : rustRound (m : ℚ) = (m : ℤ) := by
  unfold rustRound
  rw [if_pos (by positivity)]
  rw [Int.floor_eq_iff]
  constructor
  · push_cast
    linarith
  · push_cast
    linarith

/-- A sampling round in which every call fails collects only penalty
samples, one per call. -/
theorem sampleRound_all_fail (calls : List (Bool × ℚ)) (h : ∀ c ∈ calls, c.1 = false) :
    sampleRound calls = List.replicate calls.length 3000 := by
  induction calls with
  | nil => rfl
  | cons c cs ih =>
    have hc : c.1 = false := h c (List.mem_cons_self c cs)
    have ih2 := ih (fun d hd => h d (List.mem_cons_of_mem c hd))
    simp only [sampleRound, List.map_cons, hc, List.length_cons, List.replicate_succ,
      Bool.false_eq_true, if_false] at *
    rw [ih2]

/-! ### Claims -/

/-- C1: for every non-empty NaN-free sequence and every p in [0,1],
percentile returns the element of the ascending sort of the input at
index min(round(p * (length - 1)), length - 1), where round is
round-to-nearest with ties away from zero (rustRound). -/
theorem C1_percentile_nearest_rank (l : List ℚ) (p : ℚ) (hl : l ≠ [])
    (h0 : 0 ≤ p) (h1 : p ≤ 1) :
    ∃ s : List ℚ, List.Perm s l ∧ s.Sorted (fun x y => x ≤ y) ∧
      percentile (l.map Fl.num) p =
        some (Fl.num (s.getD
          (min (rustRound (p * ((l.length : ℚ) - 1))).toNat (l.length - 1)) 0)) :=
  ⟨List.insertionSort (fun x y => x ≤ y) l, List.perm_insertionSort _ l,
    List.sorted_insertionSort _ l, percentile_map l p hl⟩

/-- Witness for C1 at the list [3, 1, 2] and p = 1/2. -/
theorem C1_witness :
    (([3, 1, 2] : List ℚ) ≠ [] ∧ (0 : ℚ) ≤ 1 / 2 ∧ (1 / 2 : ℚ) ≤ 1) ∧
    (∃ s : List ℚ, List.Perm s [3, 1, 2] ∧ s.Sorted (fun x y => x ≤ y) ∧
      percentile (([3, 1, 2] : List ℚ).map Fl.num) (1 / 2) =
        some (Fl.num (s.getD
          (min (rustRound ((1 / 2) * (((([3, 1, 2] : List ℚ)).length : ℚ) - 1))).toNat
            ((([3, 1, 2] : List ℚ)).length - 1)) 0))) :=
  ⟨⟨by decide, by norm_num, by norm_num⟩,
    C1_percentile_nearest_rank [3, 1, 2] (1 / 2) (by decide) (by norm_num) (by norm_num)⟩

/-- C2: the status classifier maps NaN to down, values at most 300 to
ok, values in (300, 800] to warn and values above 800 to down; in
particular at 0, 300, 300.0001, 800, 800.0001 and 10000. -/
theorem C2_classify_thresholds :
    classify Fl.nan = HealthStatus.down ∧
    (∀ q : ℚ, q ≤ 300 → classify (Fl.num q) = HealthStatus.ok) ∧
    (∀ q : ℚ, 300 < q → q ≤ 800 → classify (Fl.num q) = HealthStatus.warn) ∧
    (∀ q : ℚ, 800 < q → classify (Fl.num q) = HealthStatus.down) ∧
    classify (Fl.num 0) = HealthStatus.ok ∧
    classify (Fl.num 300) = HealthStatus.ok ∧
    classify (Fl.num 300.0001) = HealthStatus.warn ∧
    classify (Fl.num 800) = HealthStatus.warn ∧
    classify (Fl.num 800.0001) = HealthStatus.down ∧
    classify (Fl.num 10000) = HealthStatus.down := by
  refine ⟨rfl, ?_, ?_, ?_, by norm_num [classify], by norm_num [classify],
    by norm_num [classify], by norm_num [classify], by norm_num [classify],
    by norm_num [classify]⟩
  · intro q hq
    simp [classify, hq]
  · intro q h1 h2
    simp [classify, not_le.mpr h1, h2]
  · intro q h1
    have h2 : (300 : ℚ) < q := lt_trans (by norm_num) h1
    simp [classify, not_le.mpr h1, not_le.mpr h2]

/-- Witness for C2 at the values 100, 500 and 900. -/
theorem C2_witness :
    classify (Fl.num 100) = HealthStatus.ok ∧
    classify (Fl.num 500) = HealthStatus.warn ∧
    classify (Fl.num 900) = HealthStatus.down :=
  ⟨C2_classify_thresholds.2.1 100 (by norm_num),
    C2_classify_thresholds.2.2.1 500 (by norm_num) (by norm_num),
    C2_classify_thresholds.2.2.2.1 900 (by norm_num)⟩

/-- C3 counterexample: on a transport failure the latest-block handler
does not return a BlockHeightResult; the unwrap on the send result
panics, refuting the claim that every upstream outcome yields a
result. -/
theorem C3_counterexample : latest_block ("unknown") Upstream.sendErr = none := rfl

/-- C3 (amended): whenever the transport succeeds and the body decodes
as a JSON-RPC response, latest_block returns a BlockHeightResult, with
rawHex defaulting to "0x0" and value to 0 when the result field is
missing; on a transport failure or an undecodable body the handler
panics instead of returning. -/
theorem C3_latest_block_fallback (chain : String) (j : Option Json) :
    (∃ b : BlockHeightResult, latest_block chain (Upstream.ok j) = some b) ∧
    latest_block chain (Upstream.ok none) =
      some { rawHex := ("0x0"), value := 0, chain := chain } ∧
    latest_block chain Upstream.sendErr = none ∧
    latest_block chain Upstream.decodeErr = none :=
  ⟨⟨_, rfl⟩, rfl, rfl, rfl⟩

/-- C4 counterexample: percentile sorts its slice argument in place,
so after the call the caller-visible slice differs from the one passed
in, refuting the claim that the caller-visible contents are left
unchanged. -/
theorem C4_counterexample :
    percentileRun ([Fl.num 3, Fl.num 1, Fl.num 2]) 0 =
      some ([Fl.num 1, Fl.num 2, Fl.num 3], Fl.num 1) ∧
    ([Fl.num 1, Fl.num 2, Fl.num 3] : List Fl) ≠ [Fl.num 3, Fl.num 1, Fl.num 2] := by
  constructor
  · norm_num [percentileRun, sortF, insertF, fcmp, cmpQ, rustRound_zero]
  · simp

/-- C4 (amended): percentile sorts the passed slice in place, so on
success the caller-visible slice afterwards is a permutation of its
previous contents (same multiset, reordered ascending); node_latency
passes a clone of its samples vector, so the samples themselves stay
intact. -/
theorem C4_percentile_permutes (v : List Fl) (p : ℚ) (s : List Fl) (r : Fl)
    (h : percentileRun v p = some (s, r)) : List.Perm s v := by
  unfold percentileRun at h
  cases hs : sortF fcmp v with
  | none =>
    rw [hs] at h
    exact absurd h (by simp)
  | some s0 =>
    rw [hs] at h
    have hperm := sortF_perm v s0 hs
    split at h
    · simp at h
    · rename_i s1 heq
      injection heq with heq1
      subst heq1
      split at h <;>
      · injection h with h1
        injection h1 with h2 h3
        exact h2 ▸ hperm

/-- Witness for C4 at the slice [2, 1] and p = 0. -/
theorem C4_witness :
    percentileRun ([Fl.num 2, Fl.num 1]) 0 = some ([Fl.num 1, Fl.num 2], Fl.num 1) ∧
    List.Perm ([Fl.num 1, Fl.num 2]) ([Fl.num 2, Fl.num 1]) :=
  ⟨by norm_num [percentileRun, sortF, insertF, fcmp, cmpQ, rustRound_zero],
    C4_percentile_permutes ([Fl.num 2, Fl.num 1]) 0 ([Fl.num 1, Fl.num 2]) (Fl.num 1)
      (by norm_num [percentileRun, sortF, insertF, fcmp, cmpQ, rustRound_zero])⟩

/-- C5: percentile of the empty sequence is the NaN sentinel for every
p, NaN classifies as down, a round of size 0 collects no samples, and
the pipeline on zero calls reports status down. -/
theorem C5_empty_percentile_down :
    (∀ p : ℚ, percentile ([] : List Fl) p = some Fl.nan) ∧
    classify Fl.nan = HealthStatus.down ∧
    sampleRound ([]) = ([] : List ℚ) ∧
    nodeLatency ([]) = some (([] : List ℚ), Fl.nan, Fl.nan, HealthStatus.down) :=
  ⟨fun _ => rfl, rfl, rfl, rfl⟩

/-- Sorting a constant list returns it unchanged. -/
theorem insertionSort_replicate :
    List.insertionSort (fun x y => x ≤ y) (List.replicate 7 (3000 : ℚ)) =
      List.replicate 7 3000 := by
  have h := List.eq_replicate_iff.mpr
    (⟨by rw [List.length_insertionSort, List.length_replicate],
      fun b hb => List.eq_of_mem_replicate
        ((List.perm_insertionSort (fun x y => x ≤ y) (List.replicate 7 (3000 : ℚ))).subset hb)⟩ :
      (List.insertionSort (fun x y => x ≤ y) (List.replicate 7 (3000 : ℚ))).length = 7 ∧
        ∀ b ∈ List.insertionSort (fun x y => x ≤ y) (List.replicate 7 (3000 : ℚ)), b = 3000)
  exact h

/-- getD on a constant list within bounds yields the constant. -/
theorem getD_replicate (n : Nat) (a : ℚ) (i : Nat) (hi : i < n) :
    (List.replicate n a).getD i 0 = a := by
  have hlen : i < (List.replicate n a).length := by
    rw [List.length_replicate]
    exact hi
  rw [getD_eq_get 0 _ i hlen]
  exact List.eq_of_mem_replicate (List.get_mem _ _ _)

/-- Running percentile on seven penalty samples yields the penalty
value for every p, and leaves the slice as seven penalty samples. -/
theorem percentileRun_replicate (p : ℚ) :
    percentileRun ((List.replicate 7 (3000 : ℚ)).map Fl.num) p =
      some ((List.replicate 7 (3000 : ℚ)).map Fl.num, Fl.num 3000) := by
  rw [percentileRun_map (List.replicate 7 (3000 : ℚ)) p (by simp)]
  rw [insertionSort_replicate]
  rw [getD_replicate 7 3000 _ (lt_of_le_of_lt (min_le_right _ _) (by simp))]

/-- The latency aggregation on seven penalty samples reports p50 and
p95 equal to the penalty and status down. -/
theorem latencyOf_replicate :
    latencyOf (List.replicate 7 (3000 : ℚ)) =
      some (List.replicate 7 (3000 : ℚ), Fl.num 3000, Fl.num 3000, HealthStatus.down) := by
  unfold latencyOf
  simp only [percentileRun_replicate]
  norm_num [classify]

/-- C6: a round of seven probe calls that all fail collects seven
penalty samples of 3000 regardless of the elapsed times, the pipeline
reports p50 = p95 = 3000, and the status is down. -/
theorem C6_all_failures_down (calls : List (Bool × ℚ)) (h7 : calls.length = 7)
    (hf : ∀ c ∈ calls, c.1 = false) :
    sampleRound calls = List.replicate 7 3000 ∧
    nodeLatency calls =
      some (List.replicate 7 (3000 : ℚ), Fl.num 3000, Fl.num 3000, HealthStatus.down) := by
  have hs : sampleRound calls = List.replicate 7 3000 := by
    rw [sampleRound_all_fail calls hf, h7]
  refine ⟨hs, ?_⟩
  unfold nodeLatency
  rw [hs, latencyOf_replicate]

/-- Witness for C6 at seven failing calls with elapsed time 123 ms. -/
theorem C6_witness :
    ((List.replicate 7 ((false, (123 : ℚ)))).length = 7 ∧
      (∀ c ∈ List.replicate 7 ((false, (123 : ℚ))), c.1 = false)) ∧
    (sampleRound (List.replicate 7 ((false, (123 : ℚ)))) = List.replicate 7 3000 ∧
      nodeLatency (List.replicate 7 ((false, (123 : ℚ)))) =
        some (List.replicate 7 (3000 : ℚ), Fl.num 3000, Fl.num 3000, HealthStatus.down)) :=
  ⟨⟨by simp, fun c hc => (List.eq_of_mem_replicate hc) ▸ rfl⟩,
    C6_all_failures_down (List.replicate 7 ((false, (123 : ℚ)))) (by simp)
      (fun c hc => (List.eq_of_mem_replicate hc) ▸ rfl)⟩

/-- C7: hexadecimal parsing strips a leading "0x" and reads base-16:
"0x10" and "10" both parse to 16, while the unparsable "0xzz" makes
the numeric value default to 0 with the raw string preserved in the
handler's result. -/
theorem C7_hex_parse :
    (∀ cs : List Char, hex_to_u64 (String.mk (('0') :: ('x') :: cs)) =
      hex_to_u64 (String.mk cs)) ∧
    hex_to_u64 ("0x10") = some 16 ∧
    hex_to_u64 ("10") = some 16 ∧
    hex_to_u64 ("0xzz") = none ∧
    (∀ chain : String, latest_block chain (Upstream.ok (some (Json.str ("0xzz")))) =
      some { rawHex := ("0xzz"), value := 0, chain := chain }) :=
  ⟨fun cs => rfl, by decide, by decide, by decide, fun chain => rfl⟩

/-- C8: on a non-empty NaN-free sequence, percentile at 0.0 is the
minimum of the samples and percentile at 1.0 the maximum. -/
theorem C8_percentile_min_max (l : List ℚ) (hl : l ≠ []) :
    ∃ a b : ℚ, percentile (l.map Fl.num) 0 = some (Fl.num a) ∧
      percentile (l.map Fl.num) 1 = some (Fl.num b) ∧
      a ∈ l ∧ b ∈ l ∧ (∀ x ∈ l, a ≤ x) ∧ (∀ x ∈ l, x ≤ b) := by
  have hperm : List.Perm (List.insertionSort (fun x y => x ≤ y) l) l :=
    List.perm_insertionSort _ l
  have hsort : (List.insertionSort (fun x y => x ≤ y) l).Sorted (fun x y => x ≤ y) :=
    List.sorted_insertionSort _ l
  have hpos : 0 < l.length := List.length_pos.mpr hl
  have hlen : (List.insertionSort (fun x y => x ≤ y) l).length = l.length :=
    List.length_insertionSort _ l
  have hslen : 0 < (List.insertionSort (fun x y => x ≤ y) l).length := hlen ▸ hpos
  have hi0 : min (rustRound ((0 : ℚ) * ((l.length : ℚ) - 1))).toNat (l.length - 1) = 0 := by
    rw [zero_mul, rustRound_zero]
    simp
  have hcast : ((l.length - 1 : ℕ) : ℚ) = (l.length : ℚ) - 1 := by
    rw [Nat.cast_sub hpos]
    norm_num
  have hi1 : min (rustRound ((1 : ℚ) * ((l.length : ℚ) - 1))).toNat (l.length - 1) =
      l.length - 1 := by
    rw [one_mul, ← hcast, rustRound_natCast]
    simp
  refine ⟨(List.insertionSort (fun x y => x ≤ y) l).getD 0 0,
    (List.insertionSort (fun x y => x ≤ y) l).getD (l.length - 1) 0, ?_, ?_, ?_, ?_, ?_, ?_⟩
  · rw [percentile_map l 0 hl, hi0]
  · rw [percentile_map l 1 hl, hi1]
  · apply hperm.subset
    rw [getD_eq_get 0 _ 0 hslen]
    exact List.get_mem _ _ _
  · apply hperm.subset
    have hlt : l.length - 1 < (List.insertionSort (fun x y => x ≤ y) l).length := by
      rw [hlen]
      exact Nat.sub_lt hpos Nat.one_pos
    rw [getD_eq_get 0 _ _ hlt]
    exact List.get_mem _ _ _
  · intro x hx
    exact sorted_getD_min _ hsort x (hperm.mem_iff.mpr hx)
  · intro x hx
    have := sorted_getD_max _ hsort x (hperm.mem_iff.mpr hx)
    rwa [hlen] at this

/-- Witness for C8 at the list [2, 1, 3]. -/
theorem C8_witness :
    (([2, 1, 3] : List ℚ) ≠ []) ∧
    (∃ a b : ℚ, percentile (([2, 1, 3] : List ℚ).map Fl.num) 0 = some (Fl.num a) ∧
      percentile (([2, 1, 3] : List ℚ).map Fl.num) 1 = some (Fl.num b) ∧
      a ∈ ([2, 1, 3] : List ℚ) ∧ b ∈ ([2, 1, 3] : List ℚ) ∧
      (∀ x ∈ ([2, 1, 3] : List ℚ), a ≤ x) ∧ (∀ x ∈ ([2, 1, 3] : List ℚ), x ≤ b)) :=
  ⟨by simp, C8_percentile_min_max ([2, 1, 3]) (by simp)⟩

/-- C9: on a non-empty NaN-free sequence the reported p50 never
exceeds the reported p95. -/
theorem C9_p50_le_p95 (l : List ℚ) (hl : l ≠ []) :
    ∃ a b : ℚ, percentile (l.map Fl.num) 0.5 = some (Fl.num a) ∧
      percentile (l.map Fl.num) 0.95 = some (Fl.num b) ∧ a ≤ b := by
  have hsort : (List.insertionSort (fun x y => x ≤ y) l).Sorted (fun x y => x ≤ y) :=
    List.sorted_insertionSort _ l
  have hpos : 0 < l.length := List.length_pos.mpr hl
  have hlen : (List.insertionSort (fun x y => x ≤ y) l).length = l.length :=
    List.length_insertionSort _ l
  have hc : (0 : ℚ) ≤ (l.length : ℚ) - 1 := by
    have h1 : (1 : ℚ) ≤ (l.length : ℚ) := by exact_mod_cast hpos
    linarith
  refine ⟨_, _, percentile_map l 0.5 hl, percentile_map l 0.95 hl, ?_⟩
  apply sorted_getD_mono _ hsort
  · apply min_le_min _ le_rfl
    apply Int.toNat_le_toNat
    unfold rustRound
    rw [if_pos (mul_nonneg (by norm_num) hc), if_pos (mul_nonneg (by norm_num) hc)]
    apply Int.floor_le_floor
    nlinarith
  · rw [hlen]
    exact lt_of_le_of_lt (min_le_right _ _) (Nat.sub_lt hpos Nat.one_pos)

/-- Witness for C9 at the list [1, 2]. -/
theorem C9_witness :
    (([1, 2] : List ℚ) ≠ []) ∧
    (∃ a b : ℚ, percentile (([1, 2] : List ℚ).map Fl.num) 0.5 = some (Fl.num a) ∧
      percentile (([1, 2] : List ℚ).map Fl.num) 0.95 = some (Fl.num b) ∧ a ≤ b) :=
  ⟨by simp, C9_p50_le_p95 ([1, 2]) (by simp)⟩

/-- C10: percentile never fails on NaN-free input; there is an input
containing NaN on which the sort comparison fails; and every sample
the latency sampler produces is a finite number, so percentile never
fails downstream of the sampler. -/
theorem C10_percentile_totality :
    (∀ (l : List ℚ) (p : ℚ), ∃ r : Fl, percentile (l.map Fl.num) p = some r) ∧
    (∃ v : List Fl, Fl.nan ∈ v ∧ percentile v 0 = none) ∧
    (∀ (calls : List (Bool × ℚ)) (p : ℚ), ∃ r : Fl,
      percentile ((sampleRound calls).map Fl.num) p = some r) :=
  ⟨fun l p => percentile_total l p,
    ⟨[Fl.nan, Fl.num 0], by simp, rfl⟩,
    fun calls p => percentile_total (sampleRound calls) p⟩

end WebStatus
